import Mathlib

/-!
Verification development for the `pdf.go` PDF-generation library.

The definitions below are a shallow embedding of the library's current
revision: `pdf.go` (the `Document` writer), the `pObject` family of
`object.go`, and the resolver `pobj`.  Serialized output is modelled as
`List Nat` (the bytes of the file); all tokens the library emits are
ASCII, so a string of ASCII characters is turned into bytes by mapping
`Char.toNat` over its characters.  Go integers are modelled as `Int`
(`Nat` where the source only ever holds non-negative counts/offsets).

The source renders numbers with `fmt`/`strconv`; for the integer-valued
numbers that arise in the writer paths (`%d`, `%010d`, `%05d`,
`Ftoa64` of an integral value) this is plain decimal notation, which is
implemented here from scratch (`decimal`, `intDec`, `zeroPad`) so that
digit-count facts can be proved.
-/

/-- One decimal digit as a character, `0 ≤ d ≤ 9` gives `'0'`..`'9'`. -/
def digitChar (d : Nat) : Char := Char.ofNat (48 + d)

/-- Decimal digits of `n` accumulated onto `acc` (most significant
    first), the digit-producing loop behind `fmt`'s `%d`.  The `fuel`
    argument only makes the recursion structural (so that closed terms
    reduce); any `fuel` of at least the digit count of `n` gives the
    digits of `n`, and `decimal` passes `n + 1`, which always
    suffices. -/
def decAux (fuel n : Nat) (acc : List Char) : List Char :=
  match fuel with
  | 0 => acc
  | fuel + 1 =>
      if n < 10 then digitChar n :: acc
      else decAux fuel (n / 10) (digitChar (n % 10) :: acc)

/-- Decimal rendering of a natural number, e.g. `decimal 45 = "45"`. -/
def decimal (n : Nat) : String := ⟨decAux (n + 1) n []⟩

/-- Decimal rendering of a Go `int` (sign and then the digits). -/
def intDec (i : Int) : String :=
  if i < 0 then "-" ++ decimal i.natAbs else decimal i.toNat

/-- Number of decimal digits of `n`. -/
def digCount (n : Nat) : Nat :=
  if h : n < 10 then 1 else digCount (n / 10) + 1
termination_by n
decreasing_by
  exact Nat.div_lt_self (by omega) (by omega)

/-- Zero padding to width `w` as done by `fmt`'s `%0wd` on a non-negative
    value: at least `w` characters, shorter digit strings padded with `'0'`. -/
def zeroPad (w : Nat) (n : Nat) : String :=
  ⟨List.replicate (w - (decimal n).length) '0' ++ (decimal n).data⟩

/-- `%0wd` on a Go `int`: a negative value keeps its sign in front of the
    zero padding (total width `w`); non-negative values are `zeroPad`. -/
def padInt (w : Nat) (i : Int) : String :=
  if i < 0 then "-" ++ ⟨List.replicate (w - 1 - (decimal i.natAbs).length) '0' ++ (decimal i.natAbs).data⟩
  else zeroPad w i.toNat

/-- Bytes of an ASCII string (every token the library writes is ASCII,
    where a character's code point is its UTF-8 byte). -/
def asciiBytes (s : String) : List Nat := s.data.map Char.toNat

theorem string_data_length (s : String) : s.data.length = s.length := by
  cases s
  rw [String.length_mk]

theorem asciiBytes_append (s t : String) :
    asciiBytes (s ++ t) = asciiBytes s ++ asciiBytes t := by
  simp [asciiBytes, String.data_append]

theorem asciiBytes_length (s : String) :
    (asciiBytes s).length = s.length := by
  rw [asciiBytes, List.length_map, string_data_length]

theorem digCount_pos (n : Nat) : 1 ≤ digCount n := by
  rw [digCount]
  split <;> omega

theorem digCount_le_self_succ (n : Nat) : digCount n ≤ n + 1 := by
  induction n using Nat.strong_induction_on with
  | _ n ih =>
    rw [digCount]
    split
    · omega
    · have h10 : 10 * (n / 10) ≤ n := Nat.mul_div_le n 10
      have := ih (n / 10) (Nat.div_lt_self (by omega) (by omega))
      omega

theorem decAux_length (fuel : Nat) :
    ∀ (n : Nat) (acc : List Char), digCount n ≤ fuel →
      (decAux fuel n acc).length = digCount n + acc.length := by
  induction fuel with
  | zero => intro n acc h; exact absurd h (by have := digCount_pos n; omega)
  | succ fuel ih =>
    intro n acc h
    rw [decAux]
    by_cases hn : n < 10
    · rw [if_pos hn, digCount, dif_pos hn]
      simp [Nat.add_comm]
    · rw [if_neg hn]
      have hd : digCount n = digCount (n / 10) + 1 := by
        rw [digCount, dif_neg hn]
      rw [ih (n / 10) _ (by omega), hd]
      simp
      omega

theorem digCount_le {k n : Nat} (h : n < 10 ^ k) (hk : 0 < k) :
    digCount n ≤ k := by
  induction k generalizing n with
  | zero => omega
  | succ k ih =>
    rw [digCount]
    split
    · omega
    · rename_i hn
      rcases Nat.eq_zero_or_pos k with rfl | hp
      · norm_num at h
        omega
      · have hdiv : n / 10 < 10 ^ k := by
          rw [Nat.div_lt_iff_lt_mul (by omega)]
          calc n < 10 ^ (k + 1) := h
            _ = 10 ^ k * 10 := by rw [pow_succ]
        have := ih hdiv hp
        omega

theorem decimal_length (n : Nat) : (decimal n).length = digCount n := by
  have h := decAux_length (n + 1) n [] (by have := digCount_le_self_succ n; omega)
  rw [decimal, String.length_mk]
  simpa using h

theorem decimal_length_le {k n : Nat} (h : n < 10 ^ k) (hk : 0 < k) :
    (decimal n).length ≤ k := by
  rw [decimal_length]
  exact digCount_le h hk

theorem decimal_length_pos (n : Nat) : 0 < (decimal n).length := by
  rw [decimal_length, digCount]
  split <;> omega

theorem zeroPad_length {w n : Nat} (h : (decimal n).length ≤ w) :
    (zeroPad w n).length = w := by
  have hd := string_data_length (decimal n)
  rw [zeroPad, String.length_mk, List.length_append, List.length_replicate]
  omega

/-!
## The `pObject` value model (`object.go`)

`pObject` is the interface of the eight PDF value types.  The source
stores `pNumber` as a `float64`; every number the writer paths at issue
here construct is integer-valued (`newPNumberInt`: lengths, counts,
sizes), and `strconv.Ftoa64(v, 'f', -1)` of an integral `float64` is its
plain decimal notation, so the payload is modelled as `Int`.  An
`*indirect` embedded in another value (the `pObject` arm of `pobj`) is
modelled by the `pRef` constructor carrying its object number: the
source renders an embedded indirect from its `num` field alone
(`indirect.toBytes`, see `Indirect.toBytes` below), and `num` is fixed
at registration before the pointer can be embedded.  `pString`/`pName`
payloads are Go strings; the borderline non-ASCII cases (escaping is an
acknowledged TODO in the source) play no part in any claim.
-/

inductive PObj where
  | pBoolean (b : Bool)
  | pNumber (v : Int)
  | pString (s : String)
  | pName (s : String)
  | pArray (elems : List PObj)
  | pDict (pairs : List (String × PObj))
  | pStream (buf : List Nat)
  | pNull
  | pRef (num : Int)
deriving Repr

mutual

/-- `toBytes` of the `pObject` family.  The stream case inlines the
    rendering of its one-entry `<</Length n>>` dictionary (the source
    builds that dictionary with `put` and renders it with
    `pDict.toBytes`; `ptoBytes_pStream_eq_dict` below proves the inlined
    form equal to the `pDict` rendering). -/
def ptoBytes : PObj → List Nat
  | .pBoolean true => asciiBytes "true"
  | .pBoolean false => asciiBytes "false"
  | .pNumber v => asciiBytes (intDec v)
  | .pString s => asciiBytes ("(" ++ s ++ ")")
  | .pName s => asciiBytes ("/" ++ s)
  | .pArray elems =>
      List.intercalate (asciiBytes " ")
        ([asciiBytes "["] ++ ptoBytesList elems ++ [asciiBytes "]"])
  | .pDict pairs =>
      List.intercalate (asciiBytes "\n")
        ([asciiBytes "<<"] ++ ptoBytesPairs pairs ++ [asciiBytes ">>"])
  | .pStream buf =>
      asciiBytes ("<<\n/Length " ++ decimal buf.length ++ "\n>>\nstream\n")
        ++ buf ++ asciiBytes "\nendstream"
  | .pNull => asciiBytes "null"
  | .pRef num => asciiBytes (intDec num ++ " 0 R")

/-- `toBytes` of each element of a `pArray`. -/
def ptoBytesList : List PObj → List (List Nat)
  | [] => []
  | o :: rest => ptoBytes o :: ptoBytesList rest

/-- `pair.toBytes` of each pair of a `pDict`: the key as a name, a
    space, then the value. -/
def ptoBytesPairs : List (String × PObj) → List (List Nat)
  | [] => []
  | (k, v) :: rest => (asciiBytes ("/" ++ k ++ " ") ++ ptoBytes v) :: ptoBytesPairs rest

end

/-- `pDict.put`: update the value of the first pair whose key equals `k`
    in place, or append a new pair when no key matches. -/
def putPair (d : List (String × PObj)) (k : String) (v : PObj) : List (String × PObj) :=
  match d with
  | [] => [(k, v)]
  | (k0, v0) :: rest =>
      if k0 = k then (k0, v) :: rest
      else (k0, v0) :: putPair rest k v

/-- The equality proved here justifies inlining the stream dictionary in
    `ptoBytes`: the rendered stream is its auto-generated one-entry
    dictionary, `stream`, the payload, and `endstream`, joined by
    newlines, exactly as `pStream.toBytes` builds it. -/
theorem ptoBytes_pStream_eq_dict (buf : List Nat) :
    ptoBytes (.pStream buf) =
      List.intercalate (asciiBytes "\n")
        [ptoBytes (.pDict (putPair [] "Length" (.pNumber buf.length))),
         asciiBytes "stream", buf, asciiBytes "endstream"] := by
  rw [ptoBytes, putPair, ptoBytes, ptoBytesPairs, ptoBytesPairs, ptoBytes]
  rw [show intDec (buf.length : Int) = decimal buf.length by
        rw [intDec, if_neg (by omega)]
        rfl]
  simp [List.intercalate, List.intersperse, asciiBytes_append, asciiBytes]

/-!
## Indirect objects (`object.go`)
-/

/-- The `indirect` struct: a `pObject` plus the object number and byte
    offset of the object inside the document. -/
structure Indirect where
  obj : PObj
  num : Int
  off : Int
deriving Repr

/-- `newIndirect`. -/
def newIndirect (o : PObj) : Indirect := ⟨o, 0, 0⟩

/-- `indirect.set`: replace the wrapped `pObject`. -/
def Indirect.set (i : Indirect) (o : PObj) : Indirect := { i with obj := o }

/-- `indirect.setNum`. -/
def Indirect.setNum (i : Indirect) (n : Int) : Indirect := { i with num := n }

/-- `indirect.setOffset`. -/
def Indirect.setOffset (i : Indirect) (o : Int) : Indirect := { i with off := o }

/-- `indirect.toBytes`: the inline reference token `"<num> 0 R"`. -/
def Indirect.toBytes (i : Indirect) : List Nat :=
  asciiBytes (intDec i.num ++ " 0 R")

/-- `indirect.body`: `"<num> 0 obj\n"`, the serialized value, `"\nendobj\n"`. -/
def Indirect.body (i : Indirect) : List Nat :=
  asciiBytes (intDec i.num ++ " 0 obj\n") ++ ptoBytes i.obj ++ asciiBytes "\nendobj\n"

/-- `indirect.ref`: the cross-reference line `"%010d 00000 n\r\n"` of the offset. -/
def Indirect.ref (i : Indirect) : List Nat :=
  asciiBytes (padInt 10 i.off ++ " 00000 n\r\n")

/-!
## The resolver `pobj` (`object.go`)

`pobj` receives a Go `interface{}` value.  `GoVal` enumerates the
shapes that matter to the resolver's dispatch: one constructor per arm
of the source's two `switch` statements, plus `goOther` standing for
any value whose `reflect.Kind` matches none of the arms (a struct, a
channel, a function, a plain pointer, an unsigned integer, a complex
number, ...).  `reflect.ValueOf(v).Kind() == reflect.Invalid` holds
only for `v == nil`, which the source already returned on, so the
`panic("unsupported type passed to pobj")` arm is unreachable and has
no counterpart here.  Map entries keep their keys as `GoVal` so that
the non-string-key check is representable; float payloads are integral
(see the `PObj` comment).  A panic is modelled as `Except.error` with
the panic's message.
-/

inductive GoVal where
  | goNil
  | goBool (b : Bool)
  | goInt (n : Int)
  | goFloat32 (v : Int)
  | goFloat64 (v : Int)
  | goString (s : String)
  | goBytes (bs : List Nat)
  | goPObj (o : PObj)
  | goReflectVal (v : GoVal)
  | goObjectable (o : PObj)
  | goSlice (xs : List GoVal)
  | goMap (entries : List (GoVal × GoVal))
  | goOther
deriving Repr

mutual

/-- `pobj`, arm for arm.  The `pObjectable` payload is the `pObject`
    the domain value's own `pObject()` method returns.  In the slice
    and map arms the source routes elements through `pArray.add` and
    `pDict.put`, whose own `pobj` call is the identity on the already
    resolved `pObject`. -/
def pobj : GoVal → Except String PObj
  | .goNil => .ok .pNull
  | .goBool b => .ok (.pBoolean b)
  | .goInt n => .ok (.pNumber n)
  | .goFloat32 v => .ok (.pNumber v)
  | .goFloat64 v => .ok (.pNumber v)
  | .goString s => .ok (.pString s)
  | .goPObj o => .ok o
  | .goBytes bs => .ok (.pStream bs)
  | .goReflectVal v => pobj v
  | .goObjectable o => .ok o
  | .goSlice xs => do
      let es ← pobjList xs
      pure (.pArray es)
  | .goMap entries => do
      let ps ← pobjMap entries []
      pure (.pDict ps)
  | .goOther => .ok .pNull

/-- The slice arm's loop: resolve each element in order. -/
def pobjList : List GoVal → Except String (List PObj)
  | [] => .ok []
  | x :: xs => do
      let e ← pobj x
      let es ← pobjList xs
      pure (e :: es)

/-- The map arm's loop over the entries: a non-string key panics, a
    string key puts the resolved value into the dictionary built so far. -/
def pobjMap : List (GoVal × GoVal) → List (String × PObj) → Except String (List (String × PObj))
  | [], acc => .ok acc
  | (k, v) :: rest, acc =>
      match k with
      | .goString s => do
          let pv ← pobj v
          pobjMap rest (putPair acc s pv)
      | _ => .error "key of map passed to pobj is not string"

end

/-!
## The indirect-object registry (`pdf.go`: `New`, `Document.add`)

`Document.add` appends to the slice `d.objs` and returns
`&d.objs[len(d.objs)-1]`, a pointer into the slice's backing array.
`New` creates the slice with `make([]indirect, 0, 10)`: capacity
exactly 10.  Per the Go specification, `append` reuses the backing
array while the length is below the capacity and otherwise allocates a
fresh, larger array and copies the elements — after which pointers
returned earlier still point into the old array.  `Registry` makes the
backing arrays explicit: `heap` lists every backing array ever
allocated, `cur` is the one `d.objs` currently views, and a `Handle`
is a pointer `&heap[gen][idx]`.  The grown capacity is modelled as
doubling (Go guarantees only "sufficiently large"; no result below
depends on the grown value).
-/

/-- A pointer to the slot `idx` of backing array `gen`, as returned by
    `Document.add`. -/
structure Handle where
  gen : Nat
  idx : Nat
deriving Repr

/-- The document's object slice, with its backing arrays explicit. -/
structure Registry where
  heap : List (List Indirect)
  cur : Nat
  cap : Nat
deriving Repr

/-- Default `indirect` used by out-of-range lookups in statements. -/
def dInd : Indirect := ⟨.pNull, 0, 0⟩

/-- `make([]indirect, 0, 10)` of `New`. -/
def Registry.new : Registry := ⟨[[]], 0, 10⟩

/-- The slice `d.objs` as currently visible. -/
def Registry.objs (r : Registry) : List Indirect := r.heap.getD r.cur []

/-- `Document.add`: `newIndirect(o)`, `setNum(len(d.objs)+1)`,
    `d.objs = append(d.objs, *i)`, return `&d.objs[len(d.objs)-1]`. -/
def Registry.add (r : Registry) (o : PObj) : Registry × Handle :=
  let arr := r.objs
  let i := (newIndirect o).setNum ((arr.length : Int) + 1)
  if arr.length < r.cap then
    (⟨r.heap.set r.cur (arr ++ [i]), r.cur, r.cap⟩, ⟨r.cur, arr.length⟩)
  else
    (⟨r.heap ++ [arr ++ [i]], r.heap.length, 2 * r.cap⟩, ⟨r.heap.length, arr.length⟩)

/-- `(*indirect).set` called through a handle returned by `add`:
    mutates the slot the pointer refers to, wherever that array now
    stands relative to `d.objs`. -/
def Registry.resolve (r : Registry) (h : Handle) (o : PObj) : Registry :=
  let arr := r.heap.getD h.gen []
  ⟨r.heap.set h.gen (arr.set h.idx ((arr.getD h.idx dInd).set o)), r.cur, r.cap⟩

/-- Register a list of values in order (left to right). -/
def addAll (r : Registry) (os : List PObj) : Registry :=
  os.foldl (fun r o => (r.add o).1) r

/-!
## The document writer (`pdf.go`: `Save` and the `write*` functions)

The output sink `d.w` is an `io.Writer`; one `Write` call either
accepts the whole buffer (`n = len(b)`, `err = nil`) or accepts a
prefix and reports an error.  A sink is modelled by the list of results
it will produce for successive `Write` calls, an exhausted list meaning
every further call succeeds.  Each `write*` function mirrors its source
line for line: it adds the returned `n` to `d.off` and `check`s the
error — a `check` panic (caught by `Save`'s `recover`, which returns
`n = d.off` and the error) is modelled by returning the error and
stopping.  The one deliberate exception is the `startxref` write in
`writeTrailer`, whose source neither adds `n` to `d.off` nor checks
`err` (the following `%%EOF` write overwrites both) — the model
reproduces exactly that.

`Save` also resolves the page tree and the catalog before writing;
those are value-level updates of two registered objects and the write
phase below is stated over an arbitrary object list, so they need no
separate model here.  `%سلام`, the binary-marker comment of the header,
is four two-byte UTF-8 characters; its bytes are spelled out.
-/

/-- Result of one `Write` call of the sink: full acceptance, or a
    failure after `wrote` bytes with message `msg`. -/
inductive WRes where
  | ok
  | fail (wrote : Nat) (msg : String)
deriving Repr

/-- One `Write` call against the scripted sink: remaining script, the
    count `n` the sink reports, and the error if any. -/
def sinkWrite (w : List WRes) (b : List Nat) : List WRes × Nat × Option String :=
  match w with
  | [] => ([], b.length, none)
  | .ok :: rest => (rest, b.length, none)
  | .fail k m :: rest => (rest, min k b.length, some m)

/-- The writer-facing state threaded through the `write*` functions:
    the sink script, `d.off`, and the bytes that have reached the sink. -/
structure WrSt where
  w : List WRes
  off : Nat
  out : List Nat
deriving Repr

/-- One checked write: `n, err := d.w.Write(b); d.off += n; check(err)`. -/
def checkedWrite (io : WrSt) (b : List Nat) : WrSt × Option String :=
  let (w1, n, e) := sinkWrite io.w b
  (⟨w1, io.off + n, io.out ++ b.take n⟩, e)

/-- The header bytes `"%PDF-1.7\n%سلام\n"` (UTF-8). -/
def headerBytes : List Nat :=
  asciiBytes "%PDF-1.7\n%" ++ [0xd8, 0xb3, 0xd9, 0x84, 0xd8, 0xa7, 0xd9, 0x85] ++ asciiBytes "\n"

/-- `writeHeader`. -/
def writeHeaderS (io : WrSt) : WrSt × Option String :=
  checkedWrite io headerBytes

/-- The loop of `writeBody`: `d.objs[i].setOffset(d.off)` and then one
    checked write of `d.objs[i].body()` per object, in slice order.
    Returns the objects with their offsets as recorded. -/
def writeBodyAux (io : WrSt) : List Indirect → WrSt × List Indirect × Option String
  | [] => (io, [], none)
  | o :: rest =>
      let o1 := o.setOffset (io.off : Int)
      let (io1, e) := checkedWrite io o1.body
      match e with
      | some m => (io1, o1 :: rest, some m)
      | none =>
          let (io2, rest1, e1) := writeBodyAux io1 rest
          (io2, o1 :: rest1, e1)

/-- The reference-line loop of `writeRefs`. -/
def writeRefsAux (io : WrSt) : List Indirect → WrSt × Option String
  | [] => (io, none)
  | o :: rest =>
      let (io1, e) := checkedWrite io o.ref
      match e with
      | some m => (io1, some m)
      | none => writeRefsAux io1 rest

/-- `writeRefs`: record `d.xOff = d.off`, write `"xref\n0 <len+1>\n"`,
    the synthetic free-list-head line, then one `ref()` line per
    object.  Returns the recorded `xOff` alongside. -/
def writeRefsS (io : WrSt) (objs : List Indirect) : WrSt × Nat × Option String :=
  let xOff := io.off
  let (io1, e1) := checkedWrite io (asciiBytes ("xref\n0 " ++ decimal (objs.length + 1) ++ "\n"))
  match e1 with
  | some m => (io1, xOff, some m)
  | none =>
      let (io2, e2) := checkedWrite io1 (asciiBytes "0000000000 65535 f\r\n")
      match e2 with
      | some m => (io2, xOff, some m)
      | none =>
          let (io3, e3) := writeRefsAux io2 objs
          (io3, xOff, e3)

/-- `writeTrailer`: `"trailer\n"`, the trailer dictionary (`Size` and
    `Root`, built with `put`), the `startxref` line — whose write
    result the source drops: no `d.off += n`, no `check(err)` — and
    `"%%EOF\n"`. -/
def writeTrailerS (io : WrSt) (objsLen : Nat) (rootNum : Int) (xOff : Nat) : WrSt × Option String :=
  let (io1, e1) := checkedWrite io (asciiBytes "trailer\n")
  match e1 with
  | some m => (io1, some m)
  | none =>
      let dic := putPair (putPair [] "Size" (.pNumber ((objsLen : Int) + 1))) "Root" (.pRef rootNum)
      let (io2, e2) := checkedWrite io1 (ptoBytes (.pDict dic))
      match e2 with
      | some m => (io2, some m)
      | none =>
          let sx := asciiBytes ("startxref\n" ++ decimal xOff ++ "\n")
          let (w3, n3, _) := sinkWrite io2.w sx
          let io3 : WrSt := ⟨w3, io2.off, io2.out ++ sx.take n3⟩
          checkedWrite io3 (asciiBytes "%%EOF\n")

/-- The final state `Save` leaves behind: the returned byte count `n`
    (`d.off`), the returned error, the bytes the sink received, the
    objects with recorded offsets, and `d.xOff`. -/
structure SaveOut where
  n : Nat
  err : Option String
  out : List Nat
  objs : List Indirect
  xOff : Nat
deriving Repr

/-- The write phase of `Save` over the registered objects: `d.off = 0`,
    header, body, refs, trailer, aborting at the first `check` panic
    with `n = d.off` and the error, as `Save`'s `recover` does.
    `rootNum` is `d.cat.num` (the catalog is the first object `New`
    registers, so 1 in every real document). -/
def saveS (objs0 : List Indirect) (rootNum : Int) (w : List WRes) : SaveOut :=
  let io0 : WrSt := ⟨w, 0, []⟩
  let (io1, e1) := writeHeaderS io0
  match e1 with
  | some m => ⟨io1.off, some m, io1.out, objs0, 0⟩
  | none =>
      let (io2, objs1, e2) := writeBodyAux io1 objs0
      match e2 with
      | some m => ⟨io2.off, some m, io2.out, objs1, 0⟩
      | none =>
          let (io3, xOff, e3) := writeRefsS io2 objs1
          match e3 with
          | some m => ⟨io3.off, some m, io3.out, objs1, xOff⟩
          | none =>
              let (io4, e4) := writeTrailerS io3 objs1.length rootNum xOff
              ⟨io4.off, e4, io4.out, objs1, xOff⟩

/-!
## Claims
-/

theorem intDec_natCast (n : Nat) : intDec (n : Int) = decimal n := by
  rw [intDec, if_neg (by omega)]
  norm_num

/-- C10: the inline reference token of an indirect object depends only
    on its object number: equal `num` fields give byte-identical
    `"<num> 0 R"` tokens regardless of the wrapped value or the offset,
    and neither `set` nor `setOffset` changes the token. -/
theorem c10_ref_token_only_num (i j : Indirect) (h : i.num = j.num) :
    i.toBytes = j.toBytes
    ∧ ∀ (o : PObj) (k : Int), (i.set o).toBytes = i.toBytes ∧ (i.setOffset k).toBytes = i.toBytes := by
  refine ⟨?_, fun o k => ⟨rfl, rfl⟩⟩
  rw [Indirect.toBytes, Indirect.toBytes, h]

/-- Witness for C10 at two concrete indirect objects sharing number 7. -/
theorem c10_ref_token_only_num_witness :
    Indirect.toBytes ⟨.pNull, 7, 0⟩ = Indirect.toBytes ⟨.pBoolean true, 7, 99⟩ :=
  (c10_ref_token_only_num ⟨.pNull, 7, 0⟩ ⟨.pBoolean true, 7, 99⟩ rfl).1

/-- C8: a rendered stream is the one-entry dictionary whose `Length` is
    exactly the payload's byte count, then `stream`, the payload bytes
    verbatim, then `endstream`, each part separated by one newline. -/
theorem c8_stream_format (p : List Nat) :
    ptoBytes (.pStream p)
      = ptoBytes (.pDict [("Length", .pNumber (p.length : Int))])
          ++ asciiBytes "\nstream\n" ++ p ++ asciiBytes "\nendstream"
    ∧ ptoBytes (.pDict [("Length", .pNumber (p.length : Int))])
        = asciiBytes ("<<\n/Length " ++ decimal p.length ++ "\n>>") := by
  have hd : ptoBytes (.pDict [("Length", .pNumber (p.length : Int))])
      = asciiBytes ("<<\n/Length " ++ decimal p.length ++ "\n>>") := by
    rw [ptoBytes, ptoBytesPairs, ptoBytesPairs, ptoBytes, intDec_natCast]
    simp [List.intercalate, List.intersperse, asciiBytes_append]
    simp [asciiBytes]
  refine ⟨?_, hd⟩
  rw [hd, ptoBytes]
  simp [asciiBytes_append, asciiBytes]

theorem putPair_keys (d : List (String × PObj)) (k : String) (v : PObj) :
    (putPair d k v).map Prod.fst
      = if k ∈ d.map Prod.fst then d.map Prod.fst else d.map Prod.fst ++ [k] := by
  induction d with
  | nil => simp [putPair]
  | cons p rest ih =>
    obtain ⟨k0, v0⟩ := p
    rw [putPair]
    by_cases hk : k0 = k
    · subst hk
      simp [if_pos rfl]
    · rw [if_neg hk]
      simp only [List.map_cons, List.mem_cons]
      rw [ih]
      by_cases hm : k ∈ rest.map Prod.fst
      · rw [if_pos hm, if_pos (Or.inr hm)]
      · rw [if_neg hm, if_neg (by rintro (h | h) <;> [exact hk h.symm; exact hm h])]
        simp

theorem putPair_second_wins (d : List (String × PObj)) (k : String) (v1 v2 : PObj) :
    putPair (putPair d k v1) k v2 = putPair d k v2 := by
  induction d with
  | nil => simp [putPair]
  | cons p rest ih =>
    obtain ⟨k0, v0⟩ := p
    rw [putPair]
    by_cases hk : k0 = k
    · rw [if_pos hk, putPair, if_pos hk, putPair, if_pos hk]
    · rw [if_neg hk, putPair, if_neg hk, putPair, if_neg hk, ih]

theorem putPair_find (d : List (String × PObj)) (k : String) (v : PObj) :
    (putPair d k v).find? (fun p => p.1 == k) = some (k, v) := by
  induction d with
  | nil => simp [putPair]
  | cons p rest ih =>
    obtain ⟨k0, v0⟩ := p
    rw [putPair]
    by_cases hk : k0 = k
    · subst hk
      simp [List.find?]
    · rw [if_neg hk]
      rw [List.find?]
      simp only [show ((k0, v0).1 == k) = false from beq_eq_false_iff_ne.mpr hk]
      exact ih

/-- C4: `pDict.put` upserts.  An existing key keeps its position and
    the dictionary's size, a new key is appended at the end; keys stay
    unique, putting the same key twice leaves the size unchanged, and
    the second value wins. -/
theorem c4_put_upsert (d : List (String × PObj)) (k : String) (v v2 : PObj)
    (h : (d.map Prod.fst).Nodup) :
    ((putPair d k v).map Prod.fst
        = if k ∈ d.map Prod.fst then d.map Prod.fst else d.map Prod.fst ++ [k])
    ∧ ((putPair d k v).map Prod.fst).Nodup
    ∧ ((putPair d k v).length = if k ∈ d.map Prod.fst then d.length else d.length + 1)
    ∧ putPair (putPair d k v) k v2 = putPair d k v2
    ∧ (putPair d k v).find? (fun p => p.1 == k) = some (k, v) := by
  refine ⟨putPair_keys d k v, ?_, ?_, putPair_second_wins d k v v2, putPair_find d k v⟩
  · rw [putPair_keys]
    by_cases hm : k ∈ d.map Prod.fst
    · rw [if_pos hm]; exact h
    · rw [if_neg hm]
      rw [List.nodup_append]
      exact ⟨h, List.nodup_singleton k, by simpa using hm⟩
  · have hlen := congrArg List.length (putPair_keys d k v)
    simp only [List.length_map] at hlen
    by_cases hm : k ∈ d.map Prod.fst
    · rw [if_pos hm] at hlen ⊢; simpa using hlen
    · rw [if_neg hm] at hlen ⊢; simpa using hlen

/-- Witness for C4 at the concrete dictionary `{A: 1, B: null}` and key `A`. -/
theorem c4_put_upsert_witness :
    ((putPair [("A", PObj.pNumber 1), ("B", PObj.pNull)] "A" (.pBoolean true)).map Prod.fst
        = if "A" ∈ [("A", PObj.pNumber 1), ("B", PObj.pNull)].map Prod.fst
          then [("A", PObj.pNumber 1), ("B", PObj.pNull)].map Prod.fst
          else [("A", PObj.pNumber 1), ("B", PObj.pNull)].map Prod.fst ++ ["A"])
    ∧ (((putPair [("A", PObj.pNumber 1), ("B", PObj.pNull)] "A" (.pBoolean true)).map Prod.fst).Nodup)
    ∧ ((putPair [("A", PObj.pNumber 1), ("B", PObj.pNull)] "A" (.pBoolean true)).length
        = if "A" ∈ [("A", PObj.pNumber 1), ("B", PObj.pNull)].map Prod.fst
          then [("A", PObj.pNumber 1), ("B", PObj.pNull)].length
          else [("A", PObj.pNumber 1), ("B", PObj.pNull)].length + 1)
    ∧ putPair (putPair [("A", PObj.pNumber 1), ("B", PObj.pNull)] "A" (.pBoolean true)) "A" (.pString "x")
        = putPair [("A", PObj.pNumber 1), ("B", PObj.pNull)] "A" (.pString "x")
    ∧ (putPair [("A", PObj.pNumber 1), ("B", PObj.pNull)] "A" (.pBoolean true)).find?
        (fun p => p.1 == "A") = some ("A", .pBoolean true) :=
  c4_put_upsert [("A", PObj.pNumber 1), ("B", PObj.pNull)] "A" (.pBoolean true) (.pString "x")
    (by decide)

/-- Whether a map key's `reflect.Kind` is `reflect.String`. -/
def stringKindKey : GoVal → Bool
  | .goString _ => true
  | _ => false

/-- C5 counterexample: an input whose kind matches none of the
    resolver's arms (a struct, a channel, ...) does NOT signal the
    `UnsupportedType` failure — `pobj` falls through its final `switch`
    and silently returns the Null object. -/
theorem c5_silent_null_counterexample :
    pobj .goOther = .ok .pNull ∧ ∀ m, pobj .goOther ≠ .error m := by
  refine ⟨rfl, fun m h => ?_⟩
  rw [pobj] at h
  exact Except.noConfusion h

theorem pobjMap_error (entries : List (GoVal × GoVal)) :
    ∀ acc, (∃ p ∈ entries, stringKindKey p.1 = false) →
      ∃ m, pobjMap entries acc = .error m := by
  induction entries with
  | nil => rintro acc ⟨p, hp, _⟩; cases hp
  | cons e rest ih =>
    rintro acc ⟨p, hp, hbad⟩
    obtain ⟨k, v⟩ := e
    cases k
    case goString s =>
      have hrest : p ∈ rest := by
        rcases List.mem_cons.mp hp with rfl | hm
        · simp [stringKindKey] at hbad
        · exact hm
      have heq : pobjMap ((GoVal.goString s, v) :: rest) acc
          = Except.bind (pobj v) (fun pv => pobjMap rest (putPair acc s pv)) := by
        rw [pobjMap]
        rfl
      cases hv : pobj v with
      | error m => exact ⟨m, by rw [heq, hv]; rfl⟩
      | ok pv =>
          obtain ⟨m, hm⟩ := ih (putPair acc s pv) ⟨p, hrest, hbad⟩
          exact ⟨m, by rw [heq, hv]; exact hm⟩
    all_goals refine ⟨"key of map passed to pobj is not string", ?_⟩
    all_goals simp only [pobjMap]

/-- C5 amended: the resolver signals the failure (a panic fatal to the
    surrounding write) exactly for mappings containing a non-string
    key; an input whose type matches none of the supported kinds is
    instead silently resolved to Null (the `UnsupportedType` panic arm
    is dead code: `reflect.Invalid` only arises for nil, which is
    handled before the switch). -/
theorem c5_resolver_failures (entries : List (GoVal × GoVal))
    (h : ∃ p ∈ entries, stringKindKey p.1 = false) :
    (∃ m, pobj (.goMap entries) = .error m) ∧ pobj .goOther = .ok .pNull := by
  obtain ⟨m, hm⟩ := pobjMap_error entries [] h
  refine ⟨⟨m, ?_⟩, rfl⟩
  rw [pobj, hm]
  rfl

/-- Witness for C5 at the one-entry map whose key is the integer 1. -/
theorem c5_resolver_failures_witness :
    (∃ m, pobj (.goMap [(.goInt 1, .goNil)]) = .error m)
    ∧ pobj .goOther = .ok .pNull :=
  c5_resolver_failures [(.goInt 1, .goNil)] ⟨(.goInt 1, .goNil), List.mem_singleton.mpr rfl, rfl⟩

theorem registry_add_objs (r : Registry) (o : PObj) (hwf : r.cur < r.heap.length) :
    (r.add o).1.objs = r.objs ++ [(newIndirect o).setNum ((r.objs.length : Int) + 1)]
    ∧ (r.add o).1.cur < (r.add o).1.heap.length := by
  simp only [Registry.add]
  split
  · constructor
    · rw [Registry.objs]
      simp only [List.getD_eq_getElem?_getD, List.getElem?_set_eq hwf]
      rfl
    · simpa using hwf
  · constructor
    · rw [Registry.objs]
      simp only [List.getD_eq_getElem?_getD, List.getElem?_concat_length]
      rfl
    · simp

theorem map_num_set (l : List Indirect) :
    ∀ (i : Nat) (o : PObj),
      (l.set i ((l.getD i dInd).set o)).map Indirect.num = l.map Indirect.num := by
  induction l with
  | nil => intro i o; rfl
  | cons x rest ih =>
    intro i o
    cases i with
    | zero => simp [List.getD_cons_zero, Indirect.set]
    | succ i => simp only [List.set_cons_succ, List.getD_cons_succ, List.map_cons, ih]

theorem registry_resolve_map_num (r : Registry) (h : Handle) (o : PObj)
    (hwf : r.cur < r.heap.length) :
    (r.resolve h o).objs.map Indirect.num = r.objs.map Indirect.num := by
  simp only [Registry.resolve, Registry.objs]
  by_cases hg : h.gen = r.cur
  · rw [hg]
    have houter : (r.heap.set r.cur
          ((r.heap.getD r.cur []).set h.idx (((r.heap.getD r.cur []).getD h.idx dInd).set o))).getD r.cur []
        = (r.heap.getD r.cur []).set h.idx (((r.heap.getD r.cur []).getD h.idx dInd).set o) := by
      rw [List.getD_eq_getElem?_getD, List.getElem?_set_eq hwf, Option.getD_some]
    rw [houter]
    exact map_num_set _ h.idx o
  · simp only [List.getD_eq_getElem?_getD, List.getElem?_set_ne hg]

theorem addAll_spec (os : List PObj) :
    ∀ (r : Registry), r.cur < r.heap.length →
      (addAll r os).cur < (addAll r os).heap.length
      ∧ (addAll r os).objs.map Indirect.num
        = r.objs.map Indirect.num
            ++ (List.range' (r.objs.length + 1) os.length).map (fun (n : Nat) => (n : Int)) := by
  induction os with
  | nil => intro r hwf; simpa [addAll] using hwf
  | cons o os ih =>
    intro r hwf
    obtain ⟨hobjs, hwf1⟩ := registry_add_objs r o hwf
    have hall : addAll r (o :: os) = addAll (r.add o).1 os := by
      simp [addAll]
    obtain ⟨ihwf, ihmap⟩ := ih (r.add o).1 hwf1
    rw [hall]
    refine ⟨ihwf, ?_⟩
    rw [ihmap, hobjs]
    have hlen : (r.objs ++ [(newIndirect o).setNum ((r.objs.length : Int) + 1)]).length
        = r.objs.length + 1 := by
      simp
    rw [hlen, List.length_cons, List.range'_succ, List.map_append, List.map_cons]
    simp only [newIndirect, Indirect.setNum, List.map_cons, List.map_nil, List.append_assoc,
      List.singleton_append]
    congr 2

/-- C2: registering `k` objects on a fresh document assigns the object
    numbers `1, 2, ..., k` in registration order — contiguous,
    ascending, no gaps, no reuse — and resolving any handle later never
    changes any object's number. -/
theorem c2_object_numbering (os : List PObj) :
    (addAll Registry.new os).objs.map Indirect.num
      = (List.range' 1 os.length).map (fun (n : Nat) => (n : Int))
    ∧ ∀ (h : Handle) (o : PObj),
        ((addAll Registry.new os).resolve h o).objs.map Indirect.num
          = (addAll Registry.new os).objs.map Indirect.num := by
  have h0 : Registry.new.cur < Registry.new.heap.length := by
    simp [Registry.new]
  obtain ⟨hwf, hmap⟩ := addAll_spec os Registry.new h0
  constructor
  · rw [hmap]
    rfl
  · intro h o
    exact registry_resolve_map_num _ h o hwf

/-- The C3 scenario: a fresh object slice (capacity 10, as `New`
    allocates it), one registration returning handle `h1`, then ten
    further registrations — the eleventh `add` exceeds the capacity, so
    Go's `append` reallocates the backing array — and finally
    `(*indirect).set` through `h1` before the write pass. -/
def c3Scenario : Registry × Handle :=
  let rh := Registry.new.add .pNull
  ((addAll rh.1 (List.replicate 10 .pNull)).resolve rh.2 (.pBoolean true), rh.2)

/-- C3: the handle returned by the first registration is NOT stable
    across the slice reallocation.  After the scenario, the body
    `writeBody` emits for object 1 (`d.objs[0].body()`) serializes the
    Null placeholder, not the last value set: the resolve landed in the
    stale generation-0 array (second conjunct); serializing the last
    value set would have produced the different bytes of the third
    conjunct. -/
theorem c3_stale_handle_loses_resolve :
    (c3Scenario.1.objs.getD 0 dInd).body = asciiBytes "1 0 obj\nnull\nendobj\n"
    ∧ ((c3Scenario.1.heap.getD 0 []).getD 0 dInd).obj = .pBoolean true
    ∧ ((c3Scenario.1.objs.getD 0 dInd).set (.pBoolean true)).body
        = asciiBytes "1 0 obj\ntrue\nendobj\n"
    ∧ asciiBytes "1 0 obj\nnull\nendobj\n" ≠ asciiBytes "1 0 obj\ntrue\nendobj\n" := by
  refine ⟨by decide, rfl, by decide, by decide⟩

/-- The single registered object of the C6 runs. -/
def c6Objs : List Indirect := [⟨.pNull, 1, 0⟩]

/-- Sink failing at the eighth `Write` call — the `startxref` line. -/
def c6WriterA : List WRes := List.replicate 7 .ok ++ [.fail 0 "io-error"]

/-- Sink failing at the ninth `Write` call — the `"%%EOF\n"` line. -/
def c6WriterB : List WRes := List.replicate 8 .ok ++ [.fail 0 "io-error"]

set_option maxRecDepth 4000 in
/-- C6: two counter-evidence runs against the claim that every I/O
    failure surfaces and the returned count equals the bytes written.
    With `c6WriterA` the `startxref` write fails, but `Save` returns no
    error at all: `writeTrailer` never checks that write's error and
    the following `%%EOF` write overwrites it.  With `c6WriterB` the
    failure surfaces, but the returned count is 13 bytes short of what
    reached the sink: the `startxref` write's `n` is never added to
    `d.off`. -/
theorem c6_trailer_write_error_dropped :
    (saveS c6Objs 1 c6WriterA).err = none
    ∧ (saveS c6Objs 1 c6WriterB).err = some "io-error"
    ∧ (saveS c6Objs 1 c6WriterB).n + 13 = (saveS c6Objs 1 c6WriterB).out.length := by
  refine ⟨by decide, by decide, by decide⟩

theorem checkedWrite_nil (off : Nat) (out b : List Nat) :
    checkedWrite ⟨[], off, out⟩ b = (⟨[], off + b.length, out ++ b⟩, none) := by
  simp [checkedWrite, sinkWrite, List.take_length]

theorem writeRefsAux_nil (objs : List Indirect) :
    ∀ (off : Nat) (out : List Nat),
      writeRefsAux ⟨[], off, out⟩ objs
        = (⟨[], off + ((objs.map Indirect.ref).flatten).length,
            out ++ (objs.map Indirect.ref).flatten⟩, none) := by
  induction objs with
  | nil => intro off out; simp [writeRefsAux]
  | cons o rest ih =>
    intro off out
    rw [writeRefsAux, checkedWrite_nil]
    simp only [List.map_cons, List.flatten_cons]
    rw [ih]
    simp [List.append_assoc, Nat.add_assoc]

/-- The bytes `writeRefs` sends to the sink: the `xref` heading with
    start number 0 and count `len+1`, the synthetic free-list-head
    line, then one `ref()` line per object in slice order. -/
def refsBlock (objs : List Indirect) : List Nat :=
  asciiBytes ("xref\n0 " ++ decimal (objs.length + 1) ++ "\n")
    ++ asciiBytes "0000000000 65535 f\r\n"
    ++ (objs.map Indirect.ref).flatten

theorem writeRefsS_nil (objs : List Indirect) (off : Nat) (out : List Nat) :
    writeRefsS ⟨[], off, out⟩ objs
      = (⟨[], off + (refsBlock objs).length, out ++ refsBlock objs⟩, off, none) := by
  rw [writeRefsS]
  simp only [checkedWrite_nil, writeRefsAux_nil, refsBlock]
  simp [List.append_assoc, Nat.add_assoc]

/-- C7: the emitted cross-reference section is exactly the `xref`
    heading line with start number 0 and count `objects + 1`, the
    synthetic free-head entry (offset 0000000000, generation 65535,
    status `f`), then per registered object, in registration order, one
    20-byte CRLF-terminated line of the 10-digit zero-padded offset,
    the 5-digit generation `00000`, and status letter `n`. -/
theorem c7_xref_section (objs : List Indirect) (off : Nat) (out : List Nat)
    (hoff : ∀ o ∈ objs, 0 ≤ o.off ∧ o.off < 10 ^ 10) :
    ((writeRefsS ⟨[], off, out⟩ objs).1.out
        = out ++ asciiBytes ("xref\n0 " ++ decimal (objs.length + 1) ++ "\n")
            ++ asciiBytes "0000000000 65535 f\r\n"
            ++ (objs.map Indirect.ref).flatten)
    ∧ (writeRefsS ⟨[], off, out⟩ objs).2.2 = none
    ∧ (writeRefsS ⟨[], off, out⟩ objs).2.1 = off
    ∧ ∀ o ∈ objs,
        Indirect.ref o = asciiBytes (zeroPad 10 o.off.toNat ++ " 00000 n\r\n")
        ∧ (Indirect.ref o).length = 20
        ∧ ∃ b, Indirect.ref o = b ++ asciiBytes "\r\n" ∧ b.length = 18 := by
  refine ⟨?_, ?_, ?_, ?_⟩
  · rw [writeRefsS_nil]
    simp [refsBlock, List.append_assoc]
  · rw [writeRefsS_nil]
  · rw [writeRefsS_nil]
  · intro o ho
    obtain ⟨h0, hlt⟩ := hoff o ho
    have hpad : padInt 10 o.off = zeroPad 10 o.off.toNat := by
      rw [padInt, if_neg (by omega)]
    have htn : o.off.toNat < 10 ^ 10 := by omega
    have hzl : (zeroPad 10 o.off.toNat).length = 10 :=
      zeroPad_length (decimal_length_le htn (by omega))
    refine ⟨by rw [Indirect.ref, hpad], ?_, ?_⟩
    · rw [Indirect.ref, hpad, asciiBytes_length, String.length_append, hzl]
      rfl
    · refine ⟨asciiBytes (zeroPad 10 o.off.toNat ++ " 00000 n"), ?_, ?_⟩
      · rw [Indirect.ref, hpad,
          show zeroPad 10 o.off.toNat ++ " 00000 n\r\n"
              = (zeroPad 10 o.off.toNat ++ " 00000 n") ++ "\r\n" by
            rw [String.append_assoc]
            congr 1,
          asciiBytes_append]
      · rw [asciiBytes_length, String.length_append, hzl]
        rfl

/-- Witness for C7: one object, offset 19, written to an empty sink. -/
theorem c7_xref_section_witness :
    ((writeRefsS ⟨[], 0, []⟩ [(⟨.pNull, 1, 19⟩ : Indirect)]).1.out
        = [] ++ asciiBytes ("xref\n0 " ++ decimal ([(⟨.pNull, 1, 19⟩ : Indirect)].length + 1) ++ "\n")
            ++ asciiBytes "0000000000 65535 f\r\n"
            ++ ([(⟨.pNull, 1, 19⟩ : Indirect)].map Indirect.ref).flatten)
    ∧ (writeRefsS ⟨[], 0, []⟩ [(⟨.pNull, 1, 19⟩ : Indirect)]).2.2 = none
    ∧ (writeRefsS ⟨[], 0, []⟩ [(⟨.pNull, 1, 19⟩ : Indirect)]).2.1 = 0
    ∧ ∀ o ∈ [(⟨.pNull, 1, 19⟩ : Indirect)],
        Indirect.ref o = asciiBytes (zeroPad 10 o.off.toNat ++ " 00000 n\r\n")
        ∧ (Indirect.ref o).length = 20
        ∧ ∃ b, Indirect.ref o = b ++ asciiBytes "\r\n" ∧ b.length = 18 :=
  c7_xref_section [⟨.pNull, 1, 19⟩] 0 [] (by decide)

/-- The offsets `writeBody` records: object `i` gets the running byte
    offset, which advances by each body's length. -/
def setOffsets (off : Nat) : List Indirect → List Indirect
  | [] => []
  | o :: rest => o.setOffset (off : Int) :: setOffsets (off + o.body.length) rest

/-- The object-header token `"<n> 0 obj"` the body of object `n` must
    begin with. -/
def objTok (n : Int) : List Nat := asciiBytes (intDec n ++ " 0 obj")

/-- Total length of the first `i` bodies. -/
def psum (objs : List Indirect) (i : Nat) : Nat :=
  ((objs.take i).map (fun o => o.body.length)).sum

theorem body_setOffset (o : Indirect) (k : Int) : (o.setOffset k).body = o.body := rfl

theorem writeBodyAux_nil (objs : List Indirect) :
    ∀ (off : Nat) (out : List Nat),
      writeBodyAux ⟨[], off, out⟩ objs
        = (⟨[], off + ((objs.map Indirect.body).flatten).length,
            out ++ (objs.map Indirect.body).flatten⟩, setOffsets off objs, none) := by
  induction objs with
  | nil => intro off out; simp [writeBodyAux, setOffsets]
  | cons o rest ih =>
    intro off out
    rw [writeBodyAux, checkedWrite_nil]
    simp only [List.map_cons, List.flatten_cons, body_setOffset]
    rw [ih]
    simp [setOffsets, List.append_assoc, Nat.add_assoc]

/-- The trailer dictionary as `writeTrailer` builds it with `put`. -/
def trailerDict (k : Nat) (root : Int) : List Nat :=
  ptoBytes (.pDict (putPair (putPair [] "Size" (.pNumber ((k : Int) + 1))) "Root" (.pRef root)))

theorem writeTrailerS_nil (off : Nat) (out : List Nat) (k : Nat) (root : Int) (x : Nat) :
    writeTrailerS ⟨[], off, out⟩ k root x
      = (⟨[], off + (asciiBytes "trailer\n").length + (trailerDict k root).length
            + (asciiBytes "%%EOF\n").length,
          out ++ asciiBytes "trailer\n" ++ trailerDict k root
            ++ asciiBytes ("startxref\n" ++ decimal x ++ "\n") ++ asciiBytes "%%EOF\n"⟩,
         none) := by
  rw [writeTrailerS]
  simp only [checkedWrite_nil, trailerDict, sinkWrite, List.take_length]

theorem saveS_nil (objs : List Indirect) (root : Int) :
    saveS objs root []
      = ⟨headerBytes.length + ((objs.map Indirect.body).flatten).length
            + (refsBlock (setOffsets headerBytes.length objs)).length
            + (asciiBytes "trailer\n").length
            + (trailerDict (setOffsets headerBytes.length objs).length root).length
            + (asciiBytes "%%EOF\n").length,
         none,
         headerBytes ++ (objs.map Indirect.body).flatten
            ++ refsBlock (setOffsets headerBytes.length objs)
            ++ asciiBytes "trailer\n"
            ++ trailerDict (setOffsets headerBytes.length objs).length root
            ++ asciiBytes ("startxref\n"
                ++ decimal (headerBytes.length + ((objs.map Indirect.body).flatten).length) ++ "\n")
            ++ asciiBytes "%%EOF\n",
         setOffsets headerBytes.length objs,
         headerBytes.length + ((objs.map Indirect.body).flatten).length⟩ := by
  rw [saveS]
  simp only [writeHeaderS, checkedWrite_nil, writeBodyAux_nil, writeRefsS_nil,
    writeTrailerS_nil, Nat.zero_add, List.nil_append]

theorem saveS_nil_spec (objs : List Indirect) (root : Int) :
    (saveS objs root []).err = none
    ∧ (saveS objs root []).objs = setOffsets headerBytes.length objs
    ∧ ∃ tail, (saveS objs root []).out
        = headerBytes ++ ((objs.map Indirect.body).flatten ++ tail) := by
  rw [saveS_nil]
  refine ⟨rfl, rfl,
    ⟨refsBlock (setOffsets headerBytes.length objs)
        ++ asciiBytes "trailer\n"
        ++ trailerDict (setOffsets headerBytes.length objs).length root
        ++ asciiBytes ("startxref\n"
            ++ decimal (headerBytes.length + ((objs.map Indirect.body).flatten).length) ++ "\n")
        ++ asciiBytes "%%EOF\n", ?_⟩⟩
  simp [List.append_assoc]

theorem setOffsets_length (objs : List Indirect) :
    ∀ off, (setOffsets off objs).length = objs.length := by
  induction objs with
  | nil => intro off; rfl
  | cons o rest ih => intro off; simp [setOffsets, ih]

theorem psum_zero (objs : List Indirect) : psum objs 0 = 0 := rfl

theorem psum_succ (o : Indirect) (objs : List Indirect) (i : Nat) :
    psum (o :: objs) (i + 1) = o.body.length + psum objs i := by
  simp [psum]

theorem setOffsets_getD (objs : List Indirect) :
    ∀ (off : Nat) (i : Nat), i < objs.length →
      (setOffsets off objs).getD i dInd
        = (objs.getD i dInd).setOffset ((off + psum objs i : Nat) : Int) := by
  induction objs with
  | nil => intro off i hi; simp at hi
  | cons o rest ih =>
    intro off i hi
    cases i with
    | zero => simp [setOffsets, psum]
    | succ i =>
        rw [setOffsets]
        simp only [List.getD_cons_succ]
        rw [ih (off + o.body.length) i (by simpa using hi), psum_succ]
        congr 2
        omega

theorem psum_le (objs : List Indirect) :
    ∀ i, i ≤ objs.length → psum objs i ≤ ((objs.map Indirect.body).flatten).length := by
  induction objs with
  | nil =>
    intro i hi
    simp only [List.length_nil, Nat.le_zero] at hi
    subst hi
    simp [psum]
  | cons o rest ih =>
    intro i hi
    cases i with
    | zero => simp [psum]
    | succ i =>
        rw [psum_succ]
        simp only [List.map_cons, List.flatten_cons, List.length_append]
        have := ih i (by simpa using hi)
        omega

theorem flatten_drop_body (objs : List Indirect) :
    ∀ i, i < objs.length →
      ((objs.map Indirect.body).flatten).drop (psum objs i)
        = (objs.getD i dInd).body ++ ((objs.drop (i + 1)).map Indirect.body).flatten := by
  induction objs with
  | nil => intro i hi; simp at hi
  | cons o rest ih =>
    intro i hi
    cases i with
    | zero => simp [psum]
    | succ i =>
        rw [psum_succ]
        simp only [List.map_cons, List.flatten_cons, List.getD_cons_succ, List.drop_succ_cons]
        rw [← List.drop_drop, List.drop_left]
        exact ih i (by simpa using hi)

theorem body_decomp (o : Indirect) :
    o.body = objTok o.num ++ (asciiBytes "\n" ++ (ptoBytes o.obj ++ asciiBytes "\nendobj\n")) := by
  rw [Indirect.body, objTok]
  rw [show intDec o.num ++ " 0 obj\n" = (intDec o.num ++ " 0 obj") ++ "\n" by
    rw [String.append_assoc]
    congr 1]
  rw [asciiBytes_append]
  simp [List.append_assoc]

/-- C1: a full write with a non-failing sink succeeds, and for every
    registered object the output bytes at that object's recorded
    cross-reference offset begin with `"<n> 0 obj"` where `n` is the
    object's number — offsets are recorded immediately before each body
    is written, bodies in registration order. -/
theorem c1_xref_consistency (objs : List Indirect) (rootNum : Int) :
    (saveS objs rootNum []).err = none
    ∧ (saveS objs rootNum []).objs.length = objs.length
    ∧ ∀ i, i < objs.length →
        ((saveS objs rootNum []).objs.getD i dInd).num = (objs.getD i dInd).num
        ∧ ((saveS objs rootNum []).out.drop
              (((saveS objs rootNum []).objs.getD i dInd).off.toNat)).take
              (objTok ((objs.getD i dInd).num)).length
            = objTok ((objs.getD i dInd).num) := by
  obtain ⟨herr, hobjs, tail, hout⟩ := saveS_nil_spec objs rootNum
  refine ⟨herr, by rw [hobjs, setOffsets_length], ?_⟩
  intro i hi
  rw [hobjs, setOffsets_getD objs headerBytes.length i hi]
  refine ⟨rfl, ?_⟩
  have hoff : ((((headerBytes.length + psum objs i : Nat) : Int)).toNat)
      = headerBytes.length + psum objs i := by
    omega
  rw [Indirect.setOffset, hoff, hout]
  rw [← List.drop_drop, List.drop_left]
  rw [List.drop_append_of_le_length (psum_le objs i (Nat.le_of_lt hi))]
  rw [flatten_drop_body objs i hi, body_decomp]
  simp only [List.append_assoc, List.take_left]

/-- Witness for C1: a one-object document written through a
    non-failing sink; the bytes at the recorded offset begin with
    `"1 0 obj"`. -/
theorem c1_xref_consistency_witness :
    ((saveS [(⟨.pString "hi", 1, 0⟩ : Indirect)] 1 []).out.drop
        (((saveS [(⟨.pString "hi", 1, 0⟩ : Indirect)] 1 []).objs.getD 0 dInd).off.toNat)).take
        (objTok (([(⟨.pString "hi", 1, 0⟩ : Indirect)].getD 0 dInd).num)).length
      = objTok (([(⟨.pString "hi", 1, 0⟩ : Indirect)].getD 0 dInd).num) :=
  ((c1_xref_consistency [⟨.pString "hi", 1, 0⟩] 1).2.2 0 (by decide)).2
